import Mathlib

/-!
# Verification of `srezmelspec/spectral_util.py` (Spectral Transform Engine)

Shallow embedding of the `SpectralUtil` class from
`src/srezmelspec/spectral_util.py` of the `advoc` repository, together with
theorems settling the frozen claims about it.

Modelling conventions:
* Numeric array entries are `Scalar`: either a finite rational (`fin q`,
  standing for an exact real value; floating-point rounding is not modelled)
  or `nonfin`, standing for a non-finite IEEE value (NaN or ±Inf).
  Arithmetic absorbs `nonfin`, as IEEE NaN does.
* Arrays are structures carrying explicit dimension fields and a total
  valuation function; entries outside the stated dimensions are irrelevant
  and array equality is stated dimension-wise plus entry-wise in range.
* NumPy-side arrays additionally carry a `DType` tag (`float32`/`float64`);
  `astype` changes only the tag (rounding between precisions is not
  modelled; NaN/Inf survive `astype`, as in NumPy).
* Python exceptions are modelled by `Except PyError`.
* The mel filterbank builders (`advoc.spectral.create_mel_filterbank`,
  `create_inverse_mel_filterbank`) and the `lws` phase-reconstruction
  processor are called by the source file but their code is not under
  `src/`; they are modelled from the spec (see the doc comments marked
  `Modelled from the spec:`), with their unknown coefficient data taken as
  parameters of the engine so that theorems quantify over every possible
  value of the data of the missing code.
-/

set_option autoImplicit false
set_option maxRecDepth 8192

namespace SpectralUtilSpec

/-- A numeric array entry: a finite (exact) value, or a non-finite IEEE
value (NaN/Inf), which arithmetic absorbs. -/
inductive Scalar where
  | fin : ℚ → Scalar
  | nonfin : Scalar
  deriving DecidableEq, Repr

/-- Addition on scalars; any non-finite operand makes the result non-finite
(as with IEEE NaN). -/
def sAdd : Scalar → Scalar → Scalar
  | Scalar.fin a, Scalar.fin b => Scalar.fin (a + b)
  | _, _ => Scalar.nonfin

/-- Multiplication on scalars; any non-finite operand makes the result
non-finite (IEEE: `NaN * x = NaN`, including `NaN * 0`). -/
def sMul : Scalar → Scalar → Scalar
  | Scalar.fin a, Scalar.fin b => Scalar.fin (a * b)
  | _, _ => Scalar.nonfin

/-- Whether a scalar is finite. -/
def Scalar.isFin : Scalar → Bool
  | Scalar.fin _ => true
  | Scalar.nonfin => false

/-- The rational value of a scalar (`0` for the non-finite value). -/
def finVal : Scalar → ℚ
  | Scalar.fin q => q
  | Scalar.nonfin => 0

/-- Scalar summation: `ssum n f = f 0 + f 1 + ... + f (n-1)`. -/
def ssum : Nat → (Nat → Scalar) → Scalar
  | 0, _ => Scalar.fin 0
  | n + 1, f => sAdd (ssum n f) (f n)

/-! ## Array types -/

/-- NumPy dtype tags relevant to the source file. -/
inductive DType where
  | f32
  | f64
  deriving DecidableEq, Repr

/-- A rank-4 TensorFlow tensor, indexed `[batch, time, frequency, channel]`
as in the spectrogram convention of the source. Dimensions are explicit; `val` is a
total function and only its in-range entries are meaningful. -/
structure Tensor4 where
  b : Nat
  t : Nat
  f : Nat
  c : Nat
  val : Nat → Nat → Nat → Nat → Scalar

/-- Dimension-wise and in-range entry-wise equality of rank-4 tensors. -/
def T4Eq (X Y : Tensor4) : Prop :=
  X.b = Y.b ∧ X.t = Y.t ∧ X.f = Y.f ∧ X.c = Y.c ∧
    ∀ i j k l, i < X.b → j < X.t → k < X.f → l < X.c → X.val i j k l = Y.val i j k l

/-- Pointwise sum of two rank-4 tensors (dimensions taken from the first,
as NumPy/TF elementwise addition of same-shaped tensors). -/
def add4 (X Y : Tensor4) : Tensor4 :=
  ⟨X.b, X.t, X.f, X.c, fun i j k l => sAdd (X.val i j k l) (Y.val i j k l)⟩

/-- Scalar multiple of a rank-4 tensor. -/
def smul4 (a : Scalar) (X : Tensor4) : Tensor4 :=
  ⟨X.b, X.t, X.f, X.c, fun i j k l => sMul a (X.val i j k l)⟩

/-- A rank-3 NumPy array `[d0, d1, d2]` with a dtype tag. -/
structure NArr3 where
  d0 : Nat
  d1 : Nat
  d2 : Nat
  dtype : DType
  val : Nat → Nat → Nat → Scalar

/-- A rank-2 NumPy array with a dtype tag. -/
structure NArr2 where
  d0 : Nat
  d1 : Nat
  dtype : DType
  val : Nat → Nat → Scalar

/-- A rank-1 NumPy array with a dtype tag. -/
structure NArr1 where
  n : Nat
  dtype : DType
  val : Nat → Scalar

/-- A complex spectrogram `[time-frame, frequency-bin]` (lws works in
complex double precision), as separate real and imaginary parts. -/
structure CSpec where
  t : Nat
  f : Nat
  re : Nat → Nat → Scalar
  im : Nat → Nat → Scalar

/-- NumPy `ndarray.astype(dtype)`: changes the dtype tag. Rounding between
precisions is not modelled; non-finite entries stay non-finite, as in
NumPy. -/
def astype3 (X : NArr3) (d : DType) : NArr3 :=
  ⟨X.d0, X.d1, X.d2, d, X.val⟩

/-- Slicing `a[:, :, 0]`: drop the trailing channel axis of a rank-3 array by
taking channel 0. -/
def slice20 (X : NArr3) : NArr2 :=
  ⟨X.d0, X.d1, X.dtype, fun i j => X.val i j 0⟩

/-- Indexing `w[:, np.newaxis, np.newaxis]`: append two singleton axes to a rank-1
array. -/
def newaxis2 (w : NArr1) : NArr3 :=
  ⟨w.n, 1, 1, w.dtype, fun i _ _ => w.val i⟩

/-! ## Class constants of `SpectralUtil` -/

def NFFT : Nat := 1024
def NHOP : Nat := 256
def NMELS : Nat := 80

/-- Number of linear-frequency bins, `NFFT/2 + 1 = 513`. -/
def NBINS : Nat := NFFT / 2 + 1

/-! ## Engine state and construction -/

/-- Python exceptions raised (directly or by callees) in the source file. -/
inductive PyError where
  | nameError : String → PyError
  | notImplementedError : PyError
  | shapeError : PyError
  | shapeMismatch : PyError
  | indexError : PyError
  deriving DecidableEq, Repr

/-- Modelled from the spec: the `lws.lws(NFFT, NHOP, mode="speech",
perfectrec=False)` processor object. The `lws` phase-reconstruction code is not under
`src/`. Per the spec, it estimates a consistent phase for the given
magnitudes by a bounded consistency iteration and resynthesizes by
overlapping windowed synthesis. The data the spec does not determine is
carried as fields, so theorems quantify over it: `phaseRe`/`phaseIm` give
the estimated unit phasor of each bin as a function of the input
magnitudes, and `synthRe`/`synthIm` are the coefficients of the windowed
inverse transform (a real-linear map of the complex bins of a frame; window
shape and overlap-add normalization — structurally nonzero by window
design — are folded into the coefficients). -/
structure LwsProc where
  nfft : Nat
  nhop : Nat
  mode : String
  perfectrec : Bool
  phaseRe : (Nat → Nat → Scalar) → Nat → Nat → Scalar
  phaseIm : (Nat → Nat → Scalar) → Nat → Nat → Scalar
  synthRe : Nat → Nat → Scalar
  synthIm : Nat → Nat → Scalar

/-- Modelled from the spec: the data produced by the external calls in the
engine constructor. `meltrans` is the forward mel filterbank and
`invmeltrans` its (pseudo-)inverse. `advoc.spectral.create_mel_filterbank` and
`create_inverse_mel_filterbank` are not under `src/`; per the spec the
forward matrix has shape `(NMELS, NBINS) = (80, 513)` and the inverse has
shape `(NBINS, NMELS) = (513, 80)`. Their coefficient values are left
universally quantified. -/
structure EngineParams where
  meltrans : Nat → Nat → Scalar
  invmeltrans : Nat → Nat → Scalar
  phaseRe : (Nat → Nat → Scalar) → Nat → Nat → Scalar
  phaseIm : (Nat → Nat → Scalar) → Nat → Nat → Scalar
  synthRe : Nat → Nat → Scalar
  synthIm : Nat → Nat → Scalar

/-- The `SpectralUtil` engine state: the two filterbank matrices stored by
`__init__` (as float32 TF constants; the dtype tag is omitted on the TF
side since every TF-side value in the file is float32) and the lws
processor. -/
structure SpectralUtil where
  meltrans : Nat → Nat → Scalar
  invmeltrans : Nat → Nat → Scalar
  lws_processor : LwsProc

/-- Constructor `SpectralUtil.__init__`: builds the two filterbank matrices once and
the lws processor with the class constants, and stores them. -/
def SpectralUtil.init (p : EngineParams) : SpectralUtil :=
  { meltrans := p.meltrans
    invmeltrans := p.invmeltrans
    lws_processor :=
      { nfft := NFFT
        nhop := NHOP
        mode := "speech"
        perfectrec := false
        phaseRe := p.phaseRe
        phaseIm := p.phaseIm
        synthRe := p.synthRe
        synthIm := p.synthIm } }

/-! ## Linear/mel projection operations -/

/-- Embedding of `tf.expand_dims(tf.tensordot(X[:,:,:,0], M, axes=1), -1)`:
contract the
frequency axis of `X` (channel 0) against the matrix `M` (whose column
count is `cols`), then restore a trailing singleton channel axis. -/
def tdot (X : Tensor4) (cols : Nat) (M : Nat → Nat → Scalar) : Tensor4 :=
  ⟨X.b, X.t, cols, 1, fun i j k _ => ssum X.f fun l => sMul (X.val i j l 0) (M l k)⟩

/-- Method `SpectralUtil.mag_to_mel_linear_spec`: project a linear-frequency
magnitude spectrogram to mel scale through `tf.transpose(self.meltrans)`.
TF rejects the graph if the channel axis cannot be indexed at 0 or the
contracted axes disagree (`meltrans` has shape `(NMELS, NBINS)`, so its
transpose has `NBINS` rows). -/
def mag_to_mel_linear_spec (u : SpectralUtil) (mag_spec : Tensor4) :
    Except PyError Tensor4 :=
  if mag_spec.c < 1 then Except.error PyError.shapeError
  else if mag_spec.f ≠ NBINS then Except.error PyError.shapeError
  else Except.ok (tdot mag_spec NMELS fun l k => u.meltrans k l)

/-- Method `SpectralUtil.mel_linear_to_mag_spec`: project a mel spectrogram back
to linear frequency. The "inverse" branch uses
`tf.transpose(self.invmeltrans)` (shape `(NMELS, NBINS)`). The
the "transposed" branch executes `transform_mat = meltrans`, a reference to
an unbound name — `meltrans` is only a local of `__init__` and an
attribute `self.meltrans`, neither in scope here — so Python raises
`NameError` before any tensor op. Any other mode string raises
`NotImplementedError`. -/
def mel_linear_to_mag_spec (u : SpectralUtil) (mel_spec : Tensor4)
    (transform : String) : Except PyError Tensor4 :=
  if transform = "inverse" then
    if mel_spec.c < 1 then Except.error PyError.shapeError
    else if mel_spec.f ≠ NMELS then Except.error PyError.shapeError
    else Except.ok (tdot mel_spec NBINS fun l k => u.invmeltrans k l)
  else if transform = "transposed" then
    Except.error (PyError.nameError "meltrans")
  else
    Except.error PyError.notImplementedError

/-! ## Phase reconstruction -/

/-- Modelled from the spec: `lws_processor.run_lws` — not under `src/` —
fails with a shape-mismatch error when the frequency dimension is not
`nfft/2 + 1`, and otherwise returns the complex spectrogram whose
magnitudes are the input magnitudes and whose phases are the unit phasors
estimated by the consistency iteration (each output bin is the input
magnitude times the estimated phasor of that bin). -/
def run_lws (proc : LwsProc) (m : NArr2) : Except PyError CSpec :=
  if m.d1 ≠ proc.nfft / 2 + 1 then Except.error PyError.shapeMismatch
  else
    Except.ok
      ⟨m.d0, m.d1,
        fun t k => sMul (m.val t k) (proc.phaseRe m.val t k),
        fun t k => sMul (m.val t k) (proc.phaseIm m.val t k)⟩

/-- Modelled from the spec: the number of output samples of overlap-add
resynthesis of `t` frames with hop `nhop` and frame size `nfft`. -/
def numSamples (proc : LwsProc) (t : Nat) : Nat :=
  (t - 1) * proc.nhop + proc.nfft

/-- Modelled from the spec: the contribution of one frame of the complex
spectrogram at in-frame offset `off` — the windowed inverse transform, a
real-linear map of the bins of the frame with coefficients
`synthRe`/`synthIm`. -/
def frameContrib (proc : LwsProc) (s : CSpec) (fr off : Nat) : Scalar :=
  ssum s.f fun k =>
    sAdd (sMul (proc.synthRe off k) (s.re fr k)) (sMul (proc.synthIm off k) (s.im fr k))

/-- Modelled from the spec: `lws_processor.istft` — not under `src/` —
resynthesizes a real waveform from a complex spectrogram by overlapping
windowed synthesis with hop `nhop` and frame size `nfft` (overlap-add of
the per-frame inverse transforms), in double precision. -/
def istft (proc : LwsProc) (s : CSpec) : NArr1 :=
  ⟨numSamples proc s.t, DType.f64, fun i =>
    ssum s.t fun fr =>
      if fr * proc.nhop ≤ i ∧ i < fr * proc.nhop + proc.nfft then
        frameContrib proc s fr (i - fr * proc.nhop)
      else Scalar.fin 0⟩

/-- The first statement of `audio_from_mag_spec`:
`mag_spec = mag_spec.astype("float64")`. -/
def audioCast (mag_spec : NArr3) : NArr3 :=
  astype3 mag_spec DType.f64

/-- Method `SpectralUtil.audio_from_mag_spec`: cast the input to float64, run the
lws phase-reconstruction on channel 0, inverse-STFT the resulting complex
spectrogram, append two singleton axes, and cast to float32. The `[:,:,0]`
slice raises `IndexError` when the channel axis is empty. -/
def audio_from_mag_spec (u : SpectralUtil) (mag_spec : NArr3) :
    Except PyError NArr3 :=
  if (audioCast mag_spec).d2 = 0 then Except.error PyError.indexError
  else
    match run_lws u.lws_processor (slice20 (audioCast mag_spec)) with
    | Except.error e => Except.error e
    | Except.ok spec_lws =>
        Except.ok (astype3 (newaxis2 (istft u.lws_processor spec_lws)) DType.f32)

/-! ## State-passing forms of the methods

Python methods receive `self` and may mutate it; the faithful state-passing
translation returns the engine state alongside the result. The methods of
`SpectralUtil` contain no attribute assignment outside `__init__`, so the
returned state is the input state. -/

/-- State-passing form of `mag_to_mel_linear_spec`. -/
def mag_to_mel_linear_spec_st (u : SpectralUtil) (mag_spec : Tensor4) :
    SpectralUtil × Except PyError Tensor4 :=
  (u, mag_to_mel_linear_spec u mag_spec)

/-- State-passing form of `mel_linear_to_mag_spec`. -/
def mel_linear_to_mag_spec_st (u : SpectralUtil) (mel_spec : Tensor4)
    (transform : String) : SpectralUtil × Except PyError Tensor4 :=
  (u, mel_linear_to_mag_spec u mel_spec transform)

/-- State-passing form of `audio_from_mag_spec`. -/
def audio_from_mag_spec_st (u : SpectralUtil) (mag_spec : NArr3) :
    SpectralUtil × Except PyError NArr3 :=
  (u, audio_from_mag_spec u mag_spec)

/-! ## Predicates used in claim statements -/

/-- The estimated unit phasors of the lws consistency iteration are finite
values (a unit phasor always is). -/
def FinitePhase (proc : LwsProc) : Prop :=
  ∀ m t k, (proc.phaseRe m t k).isFin = true ∧ (proc.phaseIm m t k).isFin = true

/-- The windowed-synthesis coefficients of the lws inverse transform are
finite values (window samples and normalization by the structurally
nonzero accumulated window energy always are). -/
def FiniteSynth (proc : LwsProc) : Prop :=
  ∀ s k, (proc.synthRe s k).isFin = true ∧ (proc.synthIm s k).isFin = true

/-- All in-range entries of a rank-4 tensor are finite. -/
def T4Fin (X : Tensor4) : Prop :=
  ∀ i j k l, i < X.b → j < X.t → k < X.f → l < X.c → (X.val i j k l).isFin = true

/-- All entries of an `r × c` matrix are finite. -/
def MatFin (M : Nat → Nat → Scalar) (r c : Nat) : Prop :=
  ∀ i j, i < r → j < c → (M i j).isFin = true

/-- The complex spectrogram `run_lws` returns on an input of matching
shape: each bin is the input magnitude (channel 0, after the float64
cast) times the estimated unit phasor of that bin. -/
def lwsSpec (p : EngineParams) (X : NArr3) : CSpec :=
  ⟨X.d0, X.d1,
    fun t k => sMul ((slice20 (audioCast X)).val t k)
      (p.phaseRe (slice20 (audioCast X)).val t k),
    fun t k => sMul ((slice20 (audioCast X)).val t k)
      (p.phaseIm (slice20 (audioCast X)).val t k)⟩

/-! ## Concrete sample data for witnesses and counterexamples -/

/-- Concrete engine parameters standing in for the externally built
filterbank and lws data (all-ones matrices, zero-phase phasor `(1, 0)`,
all-ones real synthesis coefficients). -/
def sampleParams : EngineParams :=
  { meltrans := fun _ _ => Scalar.fin 1
    invmeltrans := fun _ _ => Scalar.fin 1
    phaseRe := fun _ _ _ => Scalar.fin 1
    phaseIm := fun _ _ _ => Scalar.fin 0
    synthRe := fun _ _ => Scalar.fin 1
    synthIm := fun _ _ => Scalar.fin 0 }

/-- A concrete engine instance. -/
def sampleUtil : SpectralUtil :=
  SpectralUtil.init sampleParams

/-- An all-zero magnitude spectrogram of shape `(1, 513, 1)`. -/
def zeroMag3 : NArr3 :=
  ⟨1, NBINS, 1, DType.f32, fun _ _ _ => Scalar.fin 0⟩

/-- A magnitude spectrogram of shape `(1, 513, 1)` whose every entry is
non-finite (NaN). -/
def nanMag3 : NArr3 :=
  ⟨1, NBINS, 1, DType.f32, fun _ _ _ => Scalar.nonfin⟩

/-- A spectrogram of shape `(1, 100, 1)`: its frequency axis does not
match `NFFT/2 + 1`. -/
def badMag3 : NArr3 :=
  ⟨1, 100, 1, DType.f32, fun _ _ _ => Scalar.fin 0⟩

/-- A linear-frequency magnitude spectrogram of shape `(1, 50, 513, 1)`. -/
def mag4sample : Tensor4 :=
  ⟨1, 50, NBINS, 1, fun _ _ _ _ => Scalar.fin 1⟩

/-- A mel spectrogram of shape `(1, 1, 80, 1)`. -/
def melZero4 : Tensor4 :=
  ⟨1, 1, NMELS, 1, fun _ _ _ _ => Scalar.fin 0⟩

/-- A linear-frequency spectrogram of shape `(1, 2, 513, 1)` with constant
entry `1`. -/
def X513 : Tensor4 :=
  ⟨1, 2, NBINS, 1, fun _ _ _ _ => Scalar.fin 1⟩

/-- A linear-frequency spectrogram of shape `(1, 2, 513, 1)` with constant
entry `2`. -/
def Y513 : Tensor4 :=
  ⟨1, 2, NBINS, 1, fun _ _ _ _ => Scalar.fin 2⟩

/-- A mel spectrogram of shape `(1, 2, 80, 1)` with constant entry `1`. -/
def X80 : Tensor4 :=
  ⟨1, 2, NMELS, 1, fun _ _ _ _ => Scalar.fin 1⟩

/-- A mel spectrogram of shape `(1, 2, 80, 1)` with constant entry `3`. -/
def Y80 : Tensor4 :=
  ⟨1, 2, NMELS, 1, fun _ _ _ _ => Scalar.fin 3⟩

/-- The entry at index `(0,0,0)` of a successful result (`fin 0` on
error); lets a closed statement inspect the returned waveform without a
binder. -/
def resultVal000 : Except PyError NArr3 → Scalar
  | Except.ok w => w.val 0 0 0
  | Except.error _ => Scalar.fin 0

/-- The result `audio_from_mag_spec` produces on `zeroMag3` with the
sample engine. -/
def audioOut0 : NArr3 :=
  astype3 (newaxis2 (istft sampleUtil.lws_processor (lwsSpec sampleParams zeroMag3)))
    DType.f32

/-! ## Scalar lemmas -/

theorem sAdd_nonfin_left (b : Scalar) : sAdd Scalar.nonfin b = Scalar.nonfin := by
  cases b <;> rfl

theorem sAdd_nonfin_right (a : Scalar) : sAdd a Scalar.nonfin = Scalar.nonfin := by
  cases a <;> rfl

theorem sMul_nonfin_left (b : Scalar) : sMul Scalar.nonfin b = Scalar.nonfin := by
  cases b <;> rfl

theorem sMul_nonfin_right (a : Scalar) : sMul a Scalar.nonfin = Scalar.nonfin := by
  cases a <;> rfl

/-- A finite scalar is `fin` of its value. -/
theorem isFin_eq (s : Scalar) (h : s.isFin = true) : s = Scalar.fin (finVal s) := by
  cases s with
  | fin q => rfl
  | nonfin => exact absurd h (by simp [Scalar.isFin])

/-- Sums agree when their terms agree in range. -/
theorem ssum_congr (n : Nat) (f g : Nat → Scalar) (h : ∀ i, i < n → f i = g i) :
    ssum n f = ssum n g := by
  induction n with
  | zero => rfl
  | succ m ih =>
    rw [ssum, ssum, ih fun i hi => h i (Nat.lt_succ_of_lt hi), h m (Nat.lt_succ_self m)]

/-- A sum all of whose terms are finite zero is finite zero. -/
theorem ssum_zero (n : Nat) (f : Nat → Scalar) (h : ∀ i, i < n → f i = Scalar.fin 0) :
    ssum n f = Scalar.fin 0 := by
  induction n with
  | zero => rfl
  | succ m ih =>
    have hm : ssum m f = Scalar.fin 0 := ih fun i hi => h i (Nat.lt_succ_of_lt hi)
    have hfm : f m = Scalar.fin 0 := h m (Nat.lt_succ_self m)
    simp [ssum, hm, hfm, sAdd]

/-- A sum with a non-finite term is non-finite. -/
theorem ssum_nonfin (n : Nat) (f : Nat → Scalar) (i : Nat) (hi : i < n)
    (hf : f i = Scalar.nonfin) : ssum n f = Scalar.nonfin := by
  induction n with
  | zero => exact absurd hi (Nat.not_lt_zero i)
  | succ m ih =>
    rcases Nat.lt_succ_iff_lt_or_eq.mp hi with h | h
    · rw [ssum, ih h, sAdd_nonfin_left]
    · subst h; rw [ssum, hf, sAdd_nonfin_right]

/-- A sum of finite terms is the finite rational sum of their values. -/
theorem ssum_fin (n : Nat) (f : Nat → Scalar) (h : ∀ i, i < n → (f i).isFin = true) :
    ssum n f = Scalar.fin (∑ i in Finset.range n, finVal (f i)) := by
  induction n with
  | zero => simp [ssum]
  | succ m ih =>
    have hm := ih fun i hi => h i (Nat.lt_succ_of_lt hi)
    have hfm : (f m).isFin = true := h m (Nat.lt_succ_self m)
    cases hfv : f m with
    | fin q =>
      rw [ssum, hm, Finset.sum_range_succ, hfv]
      simp [sAdd, finVal]
    | nonfin => rw [hfv] at hfm; exact absurd hfm (by simp [Scalar.isFin])

/-! ## Pipeline lemmas -/

/-- On an input whose frequency axis matches `NBINS` and whose channel
axis is a singleton, `audio_from_mag_spec` of a constructed engine runs
the full pipeline and succeeds. -/
theorem audio_ok (p : EngineParams) (X : NArr3) (h1 : X.d1 = NBINS) (h2 : X.d2 = 1) :
    audio_from_mag_spec (SpectralUtil.init p) X =
      Except.ok (astype3 (newaxis2 (istft (SpectralUtil.init p).lws_processor
        (lwsSpec p X))) DType.f32) := by
  have hd2 : ¬ (audioCast X).d2 = 0 := by
    show ¬ X.d2 = 0
    rw [h2]
    exact Nat.one_ne_zero
  have hcond : ¬ (slice20 (audioCast X)).d1 ≠
      (SpectralUtil.init p).lws_processor.nfft / 2 + 1 := by
    show ¬ X.d1 ≠ NFFT / 2 + 1
    rw [h1]
    exact fun h => h rfl
  have hrun : run_lws (SpectralUtil.init p).lws_processor (slice20 (audioCast X)) =
      Except.ok (lwsSpec p X) := by
    unfold run_lws
    rw [if_neg hcond]
    rfl
  unfold audio_from_mag_spec
  rw [if_neg hd2, hrun]

/-- On a successful run of a constructed engine, `mag_to_mel_linear_spec`
returns the projection through the transpose of the forward filterbank. -/
theorem mag_to_mel_ok (u : SpectralUtil) (X : Tensor4) (hf : X.f = NBINS) (hc : 1 ≤ X.c) :
    mag_to_mel_linear_spec u X =
      Except.ok (tdot X NMELS fun l k => u.meltrans k l) := by
  unfold mag_to_mel_linear_spec
  rw [if_neg (by omega), if_neg (by simp [hf])]

/-- In inverse mode on a mel-shaped input, `mel_linear_to_mag_spec`
returns the projection through the transpose of the inverse filterbank. -/
theorem mel_inv_ok (u : SpectralUtil) (X : Tensor4) (hf : X.f = NMELS) (hc : 1 ≤ X.c) :
    mel_linear_to_mag_spec u X "inverse" =
      Except.ok (tdot X NBINS fun l k => u.invmeltrans k l) := by
  unfold mel_linear_to_mag_spec
  rw [if_pos rfl, if_neg (by omega), if_neg (by simp [hf])]

/-- Overlap-add resynthesis of a spectrogram whose in-range bins are all
zero yields all-zero samples, provided the synthesis coefficients are
finite. -/
theorem istft_zero (proc : LwsProc) (s : CSpec) (hsy : FiniteSynth proc)
    (hz : ∀ fr k, fr < s.t → k < s.f →
      s.re fr k = Scalar.fin 0 ∧ s.im fr k = Scalar.fin 0) :
    ∀ i, (istft proc s).val i = Scalar.fin 0 := by
  intro i
  have hv : (istft proc s).val i = ssum s.t fun fr =>
      if fr * proc.nhop ≤ i ∧ i < fr * proc.nhop + proc.nfft then
        frameContrib proc s fr (i - fr * proc.nhop)
      else Scalar.fin 0 := rfl
  rw [hv]
  apply ssum_zero
  intro fr hfr
  by_cases hcond : fr * proc.nhop ≤ i ∧ i < fr * proc.nhop + proc.nfft
  · rw [if_pos hcond]
    unfold frameContrib
    apply ssum_zero
    intro k hk
    rcases hsy (i - fr * proc.nhop) k with ⟨hs1, hs2⟩
    rw [(hz fr k hfr hk).1, (hz fr k hfr hk).2, isFin_eq _ hs1, isFin_eq _ hs2]
    simp [sMul, sAdd]
  · rw [if_neg hcond]

/-- A non-finite bin of the complex spectrogram reaches the output of
overlap-add resynthesis: the first sample of its frame is non-finite. -/
theorem istft_nonfin (proc : LwsProc) (s : CSpec) (t0 k0 : Nat)
    (ht : t0 < s.t) (hk : k0 < s.f) (hnf : 0 < proc.nfft)
    (hv : s.re t0 k0 = Scalar.nonfin) :
    (istft proc s).val (t0 * proc.nhop) = Scalar.nonfin := by
  have hval : (istft proc s).val (t0 * proc.nhop) = ssum s.t fun fr =>
      if fr * proc.nhop ≤ t0 * proc.nhop ∧
          t0 * proc.nhop < fr * proc.nhop + proc.nfft then
        frameContrib proc s fr (t0 * proc.nhop - fr * proc.nhop)
      else Scalar.fin 0 := rfl
  rw [hval]
  apply ssum_nonfin _ _ t0 ht
  rw [if_pos ⟨Nat.le_refl _, Nat.lt_add_of_pos_right hnf⟩]
  unfold frameContrib
  apply ssum_nonfin _ _ k0 hk
  rw [hv, sMul_nonfin_right, sAdd_nonfin_left]

/-- Multiplying a finite scalar by finite zero on the left gives finite
zero. -/
theorem sMul_zero_left (b : Scalar) (h : b.isFin = true) :
    sMul (Scalar.fin 0) b = Scalar.fin 0 := by
  cases b with
  | fin q => simp [sMul]
  | nonfin => exact absurd h (by simp [Scalar.isFin])

/-- Contraction against a matrix is a linear map: contracting
`a·X + b·Y` equals `a·`(contraction of `X`) `+ b·`(contraction of `Y`),
for finite-valued inputs and matrix. -/
theorem tdot_linear (a b : ℚ) (X Y : Tensor4) (cols : Nat) (M : Nat → Nat → Scalar)
    (hYb : Y.b = X.b) (hYt : Y.t = X.t) (hYf : Y.f = X.f)
    (hcX : 0 < X.c) (hcY : 0 < Y.c)
    (hX : T4Fin X) (hY : T4Fin Y)
    (hM : ∀ l k, l < X.f → k < cols → (M l k).isFin = true) :
    T4Eq (tdot (add4 (smul4 (Scalar.fin a) X) (smul4 (Scalar.fin b) Y)) cols M)
      (add4 (smul4 (Scalar.fin a) (tdot X cols M))
        (smul4 (Scalar.fin b) (tdot Y cols M))) := by
  refine ⟨rfl, rfl, rfl, rfl, ?_⟩
  intro i j k l hi hj hk hl
  have hi' : i < X.b := hi
  have hj' : j < X.t := hj
  have hk' : k < cols := hk
  have hXfin : ∀ m, m < X.f → (X.val i j m 0).isFin = true :=
    fun m hm => hX i j m 0 hi' hj' hm hcX
  have hYfin : ∀ m, m < X.f → (Y.val i j m 0).isFin = true :=
    fun m hm => hY i j m 0 (by omega) (by omega) (by omega) hcY
  have hMfin : ∀ m, m < X.f → (M m k).isFin = true := fun m hm => hM m k hm hk'
  show ssum X.f (fun m => sMul (sAdd (sMul (Scalar.fin a) (X.val i j m 0))
        (sMul (Scalar.fin b) (Y.val i j m 0))) (M m k))
      = sAdd (sMul (Scalar.fin a) (ssum X.f fun m => sMul (X.val i j m 0) (M m k)))
          (sMul (Scalar.fin b) (ssum Y.f fun m => sMul (Y.val i j m 0) (M m k)))
  have e1 : ssum X.f (fun m => sMul (sAdd (sMul (Scalar.fin a) (X.val i j m 0))
        (sMul (Scalar.fin b) (Y.val i j m 0))) (M m k))
      = ssum X.f (fun m => Scalar.fin ((a * finVal (X.val i j m 0)
        + b * finVal (Y.val i j m 0)) * finVal (M m k))) := by
    apply ssum_congr
    intro m hm
    rw [isFin_eq _ (hXfin m hm), isFin_eq _ (hYfin m hm), isFin_eq _ (hMfin m hm)]
    rfl
  have e2 : ssum X.f (fun m => sMul (X.val i j m 0) (M m k))
      = ssum X.f (fun m => Scalar.fin (finVal (X.val i j m 0) * finVal (M m k))) := by
    apply ssum_congr
    intro m hm
    rw [isFin_eq _ (hXfin m hm), isFin_eq _ (hMfin m hm)]
    rfl
  have e3 : ssum Y.f (fun m => sMul (Y.val i j m 0) (M m k))
      = ssum X.f (fun m => Scalar.fin (finVal (Y.val i j m 0) * finVal (M m k))) := by
    rw [hYf]
    apply ssum_congr
    intro m hm
    rw [isFin_eq _ (hYfin m hm), isFin_eq _ (hMfin m hm)]
    rfl
  rw [e1, e2, e3,
    ssum_fin X.f (fun m => Scalar.fin ((a * finVal (X.val i j m 0)
      + b * finVal (Y.val i j m 0)) * finVal (M m k))) (fun m hm => rfl),
    ssum_fin X.f (fun m => Scalar.fin (finVal (X.val i j m 0) * finVal (M m k)))
      (fun m hm => rfl),
    ssum_fin X.f (fun m => Scalar.fin (finVal (Y.val i j m 0) * finVal (M m k)))
      (fun m hm => rfl)]
  simp only [sMul, sAdd, finVal]
  congr 1
  rw [Finset.mul_sum, Finset.mul_sum, ← Finset.sum_add_distrib]
  apply Finset.sum_congr rfl
  intro m hm
  ring

/-! ## Claims -/

/-- C1: the claim states that `mel_linear_to_mag_spec` with
`transform = "transposed"` is a distinct, working code path applying the
transpose of the forward filterbank. On the code it is not: the branch
reads the unbound name `meltrans` (the matrix is stored only as
`self.meltrans`), so Python raises `NameError` before any projection.
This theorem evaluates the embedded code at a concrete failing input. -/
theorem C1_transposed_raises_name_error :
    mel_linear_to_mag_spec sampleUtil melZero4 "transposed" =
      Except.error (PyError.nameError "meltrans") := by
  rfl

/-- C2: for every engine, input spectrogram, and transform-mode string
other than "inverse" and "transposed", `mel_linear_to_mag_spec` raises
`NotImplementedError` and returns no result. -/
theorem C2_unknown_mode_raises (u : SpectralUtil) (mel : Tensor4) (t : String)
    (h1 : t ≠ "inverse") (h2 : t ≠ "transposed") :
    mel_linear_to_mag_spec u mel t = Except.error PyError.notImplementedError := by
  unfold mel_linear_to_mag_spec
  rw [if_neg h1, if_neg h2]

/-- Witness for C2 at the concrete mode string "mel". -/
theorem C2_witness :
    ("mel" : String) ≠ "inverse" ∧ ("mel" : String) ≠ "transposed" ∧
      mel_linear_to_mag_spec sampleUtil melZero4 "mel" =
        Except.error PyError.notImplementedError :=
  ⟨by decide, by decide,
    C2_unknown_mode_raises sampleUtil melZero4 "mel" (by decide) (by decide)⟩

/-- C6: for every engine and input of shape `(b, t, 513, 1)`,
`mag_to_mel_linear_spec` succeeds and returns shape `(b, t, 80, 1)`:
the frequency axis is replaced by the mel-band count, the batch and time
axes and the trailing singleton channel axis are preserved. -/
theorem C6_forward_projection_shape (u : SpectralUtil) (X : Tensor4)
    (hf : X.f = NBINS) (hc : X.c = 1) :
    ∃ Z, mag_to_mel_linear_spec u X = Except.ok Z ∧
      Z.b = X.b ∧ Z.t = X.t ∧ Z.f = NMELS ∧ Z.c = 1 :=
  ⟨_, mag_to_mel_ok u X hf (by omega), rfl, rfl, rfl, rfl⟩

/-- Witness for C6: an input of shape `(1, 50, 513, 1)` yields shape
`(1, 50, 80, 1)`. -/
theorem C6_witness :
    mag4sample.f = NBINS ∧ mag4sample.c = 1 ∧
      ∃ Z, mag_to_mel_linear_spec sampleUtil mag4sample = Except.ok Z ∧
        Z.b = 1 ∧ Z.t = 50 ∧ Z.f = 80 ∧ Z.c = 1 :=
  ⟨rfl, rfl, C6_forward_projection_shape sampleUtil mag4sample rfl rfl⟩

/-- C8: for every constructed engine and every input spectrogram of shape
`(t, f, 1)` with `f ≠ NFFT/2 + 1 = 513`, `audio_from_mag_spec` fails with
the shape-mismatch error and produces no output waveform. -/
theorem C8_freq_mismatch_error (p : EngineParams) (X : NArr3)
    (h2 : X.d2 = 1) (hf : X.d1 ≠ NBINS) :
    audio_from_mag_spec (SpectralUtil.init p) X =
      Except.error PyError.shapeMismatch := by
  have hd2 : ¬ (audioCast X).d2 = 0 := by
    show ¬ X.d2 = 0
    rw [h2]
    exact Nat.one_ne_zero
  have hrun : run_lws (SpectralUtil.init p).lws_processor (slice20 (audioCast X)) =
      Except.error PyError.shapeMismatch := by
    unfold run_lws
    exact if_pos (show (slice20 (audioCast X)).d1 ≠
      (SpectralUtil.init p).lws_processor.nfft / 2 + 1 from hf)
  unfold audio_from_mag_spec
  rw [if_neg hd2, hrun]

/-- Witness for C8 at a concrete spectrogram with 100 frequency bins. -/
theorem C8_witness :
    badMag3.d2 = 1 ∧ badMag3.d1 ≠ NBINS ∧
      audio_from_mag_spec sampleUtil badMag3 = Except.error PyError.shapeMismatch :=
  ⟨rfl, by decide, C8_freq_mismatch_error sampleParams badMag3 rfl (by decide)⟩

/-- C9: the filterbank matrices are set once by the constructor, and none
of the three public operations (here in state-passing form, returning the
engine state alongside the result) changes any engine field: the returned
state equals the input state for every call. -/
theorem C9_no_state_mutation (p : EngineParams) (mag mel : Tensor4) (t : String)
    (m : NArr3) :
    ((SpectralUtil.init p).meltrans = p.meltrans ∧
      (SpectralUtil.init p).invmeltrans = p.invmeltrans) ∧
    (mag_to_mel_linear_spec_st (SpectralUtil.init p) mag).1 = SpectralUtil.init p ∧
    (mel_linear_to_mag_spec_st (SpectralUtil.init p) mel t).1 = SpectralUtil.init p ∧
    (audio_from_mag_spec_st (SpectralUtil.init p) m).1 = SpectralUtil.init p :=
  ⟨⟨rfl, rfl⟩, rfl, rfl, rfl⟩

/-- C10: for every constructed engine and every input spectrogram of
shape `(t, 513, 1)` with `t ≥ 1`, `audio_from_mag_spec` succeeds and
returns a rank-3 array of shape `(n_samples, 1, 1)` — a waveform with two
trailing singleton axes, not a batched array. -/
theorem C10_output_shape (p : EngineParams) (X : NArr3)
    (h0 : 1 ≤ X.d0) (h1 : X.d1 = NBINS) (h2 : X.d2 = 1) :
    ∃ w, audio_from_mag_spec (SpectralUtil.init p) X = Except.ok w ∧
      w.d0 = numSamples (SpectralUtil.init p).lws_processor X.d0 ∧
      w.d1 = 1 ∧ w.d2 = 1 :=
  ⟨_, audio_ok p X h1 h2, rfl, rfl, rfl⟩

/-- Witness for C10 at a concrete one-frame spectrogram. -/
theorem C10_witness :
    1 ≤ zeroMag3.d0 ∧
      ∃ w, audio_from_mag_spec sampleUtil zeroMag3 = Except.ok w ∧
        w.d0 = numSamples sampleUtil.lws_processor zeroMag3.d0 ∧
        w.d1 = 1 ∧ w.d2 = 1 :=
  ⟨by decide, C10_output_shape sampleParams zeroMag3 (by decide) rfl rfl⟩

/-- C3: for every constructed engine (with the finite unit phasors and
finite synthesis coefficients the spec guarantees of the lws processor)
and every all-zero magnitude spectrogram of the expected shape
`(t, 513, 1)`, `audio_from_mag_spec` returns an all-zero waveform of the
corresponding sample length whose entries are all finite (no NaN/Inf). -/
theorem C3_zero_input_silence (p : EngineParams)
    (hph : FinitePhase (SpectralUtil.init p).lws_processor)
    (hsy : FiniteSynth (SpectralUtil.init p).lws_processor)
    (X : NArr3) (h1 : X.d1 = NBINS) (h2 : X.d2 = 1)
    (hz : ∀ t k c, t < X.d0 → k < X.d1 → c < X.d2 → X.val t k c = Scalar.fin 0) :
    ∃ w, audio_from_mag_spec (SpectralUtil.init p) X = Except.ok w ∧
      w.d0 = numSamples (SpectralUtil.init p).lws_processor X.d0 ∧
      w.d1 = 1 ∧ w.d2 = 1 ∧
      ∀ i, i < w.d0 → w.val i 0 0 = Scalar.fin 0 := by
  refine ⟨_, audio_ok p X h1 h2, rfl, rfl, rfl, ?_⟩
  intro i _
  show (istft (SpectralUtil.init p).lws_processor (lwsSpec p X)).val i = Scalar.fin 0
  apply istft_zero _ _ hsy
  intro fr k hfr hk
  have hph' : ∀ m t k, (p.phaseRe m t k).isFin = true ∧ (p.phaseIm m t k).isFin = true :=
    hph
  have hx : (slice20 (audioCast X)).val fr k = Scalar.fin 0 :=
    hz fr k 0 hfr hk (by omega)
  constructor
  · show sMul ((slice20 (audioCast X)).val fr k)
        (p.phaseRe (slice20 (audioCast X)).val fr k) = Scalar.fin 0
    rw [hx]
    exact sMul_zero_left _ (hph' (slice20 (audioCast X)).val fr k).1
  · show sMul ((slice20 (audioCast X)).val fr k)
        (p.phaseIm (slice20 (audioCast X)).val fr k) = Scalar.fin 0
    rw [hx]
    exact sMul_zero_left _ (hph' (slice20 (audioCast X)).val fr k).2

/-- Witness for C3 at a concrete engine and a concrete all-zero
spectrogram of shape `(1, 513, 1)`. -/
theorem C3_witness :
    FinitePhase sampleUtil.lws_processor ∧ FiniteSynth sampleUtil.lws_processor ∧
      zeroMag3.d1 = NBINS ∧
      ∃ w, audio_from_mag_spec sampleUtil zeroMag3 = Except.ok w ∧
        w.d0 = numSamples sampleUtil.lws_processor zeroMag3.d0 ∧
        w.d1 = 1 ∧ w.d2 = 1 ∧
        ∀ i, i < w.d0 → w.val i 0 0 = Scalar.fin 0 :=
  ⟨fun _ _ _ => ⟨rfl, rfl⟩, fun _ _ => ⟨rfl, rfl⟩, rfl,
    C3_zero_input_silence sampleParams (fun _ _ _ => ⟨rfl, rfl⟩)
      (fun _ _ => ⟨rfl, rfl⟩) zeroMag3 rfl rfl (fun _ _ _ _ _ _ => rfl)⟩

/-- C4 (counterexample): the claim states `audio_from_mag_spec` rejects a
magnitude spectrogram containing a non-finite value with an error before
reconstruction. At a concrete all-NaN input of the expected shape the
call succeeds (returns a result, no error), and the returned waveform
contains the propagated non-finite value. -/
theorem C4_counterexample :
    (audio_from_mag_spec sampleUtil nanMag3).isOk = true ∧
      resultVal000 (audio_from_mag_spec sampleUtil nanMag3) = Scalar.nonfin := by
  have h : audio_from_mag_spec sampleUtil nanMag3 =
      Except.ok (astype3 (newaxis2 (istft sampleUtil.lws_processor
        (lwsSpec sampleParams nanMag3))) DType.f32) :=
    audio_ok sampleParams nanMag3 rfl rfl
  constructor
  · rw [h]; rfl
  · rw [h]
    show (istft sampleUtil.lws_processor (lwsSpec sampleParams nanMag3)).val 0 =
      Scalar.nonfin
    have hre : (lwsSpec sampleParams nanMag3).re 0 0 = Scalar.nonfin := rfl
    have := istft_nonfin sampleUtil.lws_processor (lwsSpec sampleParams nanMag3)
      0 0 (by decide) (by decide) (by decide) hre
    simpa using this

/-- C4 (amended): `audio_from_mag_spec` performs no finiteness check — an
input of the expected shape with a non-finite entry is accepted, and the
non-finite value propagates through the phase reconstruction into the
returned waveform (the sample at the start of the affected frame is
non-finite). -/
theorem C4_nonfinite_not_rejected (p : EngineParams) (X : NArr3) (t0 k0 : Nat)
    (h1 : X.d1 = NBINS) (h2 : X.d2 = 1) (ht : t0 < X.d0) (hk : k0 < X.d1)
    (hv : X.val t0 k0 0 = Scalar.nonfin) :
    ∃ w, audio_from_mag_spec (SpectralUtil.init p) X = Except.ok w ∧
      w.val (t0 * NHOP) 0 0 = Scalar.nonfin := by
  refine ⟨_, audio_ok p X h1 h2, ?_⟩
  show (istft (SpectralUtil.init p).lws_processor (lwsSpec p X)).val (t0 * NHOP) =
    Scalar.nonfin
  have hre : (lwsSpec p X).re t0 k0 = Scalar.nonfin := by
    show sMul ((slice20 (audioCast X)).val t0 k0)
      (p.phaseRe (slice20 (audioCast X)).val t0 k0) = Scalar.nonfin
    have hx : (slice20 (audioCast X)).val t0 k0 = Scalar.nonfin := hv
    rw [hx, sMul_nonfin_left]
  exact istft_nonfin (SpectralUtil.init p).lws_processor (lwsSpec p X) t0 k0
    ht hk (show (0:Nat) < 1024 by decide) hre

/-- Witness for the amended C4 at a concrete all-NaN spectrogram of shape
`(1, 513, 1)`. -/
theorem C4_witness :
    nanMag3.d1 = NBINS ∧ nanMag3.val 0 0 0 = Scalar.nonfin ∧
      ∃ w, audio_from_mag_spec sampleUtil nanMag3 = Except.ok w ∧
        w.val (0 * NHOP) 0 0 = Scalar.nonfin :=
  ⟨rfl, rfl, C4_nonfinite_not_rejected sampleParams nanMag3 0 0 rfl rfl
    (by decide) (by decide) rfl⟩

/-- C5: for every constructed engine and every input, the value fed to
the phase reconstruction is the input cast to float64; the waveform the
inverse STFT produces is still float64 (the downcast has not yet
happened); and every successful result of `audio_from_mag_spec` is cast
to float32 only at that final output boundary. -/
theorem C5_precision_boundaries (p : EngineParams) (X : NArr3) :
    (audioCast X).dtype = DType.f64 ∧
    (∀ s, run_lws (SpectralUtil.init p).lws_processor (slice20 (audioCast X)) =
        Except.ok s →
      (istft (SpectralUtil.init p).lws_processor s).dtype = DType.f64) ∧
    (∀ w, audio_from_mag_spec (SpectralUtil.init p) X = Except.ok w →
      w.dtype = DType.f32) := by
  refine ⟨rfl, fun s _ => rfl, fun w hw => ?_⟩
  unfold audio_from_mag_spec at hw
  by_cases hd : (audioCast X).d2 = 0
  · rw [if_pos hd] at hw
    cases hw
  · rw [if_neg hd] at hw
    cases hrun : run_lws (SpectralUtil.init p).lws_processor (slice20 (audioCast X)) with
    | error e => rw [hrun] at hw; cases hw
    | ok s =>
      rw [hrun] at hw
      cases hw
      rfl

/-- Witness for C5 at a concrete engine and spectrogram. -/
theorem C5_witness :
    (audioCast zeroMag3).dtype = DType.f64 ∧
      (istft sampleUtil.lws_processor (lwsSpec sampleParams zeroMag3)).dtype =
        DType.f64 ∧
      audioOut0.dtype = DType.f32 :=
  ⟨(C5_precision_boundaries sampleParams zeroMag3).1,
    (C5_precision_boundaries sampleParams zeroMag3).2.1
      (lwsSpec sampleParams zeroMag3) rfl,
    (C5_precision_boundaries sampleParams zeroMag3).2.2 audioOut0
      (audio_ok sampleParams zeroMag3 rfl rfl)⟩

/-- C7: both projection operations are linear maps (exactly, over the
exact-rational scalar model): on finite-valued compatible spectrograms
`X`, `Y` and scalars `a`, `b`, projecting `a·X + b·Y` succeeds and equals
`a·`(projection of `X`)` + b·`(projection of `Y`), both for
`mag_to_mel_linear_spec` (on linear-frequency input) and for
`mel_linear_to_mag_spec` in inverse mode (on mel input); no
normalization, clipping, or non-linearity is applied. -/
theorem C7_projection_linearity (u : SpectralUtil) (a b : ℚ) (X Y : Tensor4)
    (hMel : MatFin u.meltrans NMELS NBINS)
    (hInv : MatFin u.invmeltrans NBINS NMELS)
    (hYb : Y.b = X.b) (hYt : Y.t = X.t) (hYf : Y.f = X.f) (hYc : Y.c = X.c)
    (hcX : X.c = 1) (hX : T4Fin X) (hY : T4Fin Y) :
    (X.f = NBINS → ∃ Z ZX ZY,
      mag_to_mel_linear_spec u
          (add4 (smul4 (Scalar.fin a) X) (smul4 (Scalar.fin b) Y)) = Except.ok Z ∧
        mag_to_mel_linear_spec u X = Except.ok ZX ∧
        mag_to_mel_linear_spec u Y = Except.ok ZY ∧
        T4Eq Z (add4 (smul4 (Scalar.fin a) ZX) (smul4 (Scalar.fin b) ZY))) ∧
    (X.f = NMELS → ∃ Z ZX ZY,
      mel_linear_to_mag_spec u
          (add4 (smul4 (Scalar.fin a) X) (smul4 (Scalar.fin b) Y)) "inverse" =
            Except.ok Z ∧
        mel_linear_to_mag_spec u X "inverse" = Except.ok ZX ∧
        mel_linear_to_mag_spec u Y "inverse" = Except.ok ZY ∧
        T4Eq Z (add4 (smul4 (Scalar.fin a) ZX) (smul4 (Scalar.fin b) ZY))) := by
  constructor
  · intro hf
    refine ⟨_, _, _,
      mag_to_mel_ok u _ hf (by show (1:Nat) ≤ X.c; omega),
      mag_to_mel_ok u X hf (by omega),
      mag_to_mel_ok u Y (by omega) (by omega), ?_⟩
    exact tdot_linear a b X Y NMELS _ hYb hYt hYf (by omega) (by omega) hX hY
      (fun l k hl hk => hMel k l hk (by omega))
  · intro hf
    refine ⟨_, _, _,
      mel_inv_ok u _ hf (by show (1:Nat) ≤ X.c; omega),
      mel_inv_ok u X hf (by omega),
      mel_inv_ok u Y (by omega) (by omega), ?_⟩
    exact tdot_linear a b X Y NBINS _ hYb hYt hYf (by omega) (by omega) hX hY
      (fun l k hl hk => hInv k l hk (by omega))

/-- Witness for C7 at concrete constant spectrograms and scalars 2, 3,
in both directions. -/
theorem C7_witness :
    (∃ Z ZX ZY,
      mag_to_mel_linear_spec sampleUtil
          (add4 (smul4 (Scalar.fin 2) X513) (smul4 (Scalar.fin 3) Y513)) =
            Except.ok Z ∧
        mag_to_mel_linear_spec sampleUtil X513 = Except.ok ZX ∧
        mag_to_mel_linear_spec sampleUtil Y513 = Except.ok ZY ∧
        T4Eq Z (add4 (smul4 (Scalar.fin 2) ZX) (smul4 (Scalar.fin 3) ZY))) ∧
    (∃ Z ZX ZY,
      mel_linear_to_mag_spec sampleUtil
          (add4 (smul4 (Scalar.fin 2) X80) (smul4 (Scalar.fin 3) Y80)) "inverse" =
            Except.ok Z ∧
        mel_linear_to_mag_spec sampleUtil X80 "inverse" = Except.ok ZX ∧
        mel_linear_to_mag_spec sampleUtil Y80 "inverse" = Except.ok ZY ∧
        T4Eq Z (add4 (smul4 (Scalar.fin 2) ZX) (smul4 (Scalar.fin 3) ZY))) :=
  ⟨(C7_projection_linearity sampleUtil 2 3 X513 Y513 (fun _ _ _ _ => rfl)
      (fun _ _ _ _ => rfl) rfl rfl rfl rfl rfl
      (fun _ _ _ _ _ _ _ _ => rfl) (fun _ _ _ _ _ _ _ _ => rfl)).1 rfl,
    (C7_projection_linearity sampleUtil 2 3 X80 Y80 (fun _ _ _ _ => rfl)
      (fun _ _ _ _ => rfl) rfl rfl rfl rfl rfl
      (fun _ _ _ _ _ _ _ _ => rfl) (fun _ _ _ _ _ _ _ _ => rfl)).2 rfl⟩

end SpectralUtilSpec
